import Mathlib

/-!
Verification of the hanabi-bot reasoning core against its specification.

The definitions below are a shallow embedding of the JavaScript sources:
* `src/basics/hanabi-util.js` (identity utilities, `cardValue`),
* `src/types.js` / `src/variants.js` (`cardCount`),
* `src/basics/Player.js` (`update_hypo_stacks`),
* `src/conventions/playful-sieve.js` (`minimalCopy`, `evaluate_clue`, `determine_clue`),
* `src/conventions/h-group/clue-interpretation/focus-possible.js` (`find_focus_possible`),
* the discard interpreter (`interpret_discard`).

JavaScript arrays indexed out of range yield `undefined`; comparisons against
`undefined` are false.  The embedding mirrors this with `List.get?` and
explicit `Option` matches whose `none` branch is `false`.  Helper methods whose
source files are not part of the repository snapshot (`Card.js`, `Hand.js`,
`IdentitySet.js`, various convention helpers) are modelled from the
specification; each such definition carries a doc comment saying so.
-/

/-- Identity of a card: a suit index and a rank (rank normally in 1..5). -/
structure Identity where
  suitIndex : Nat
  rank : Nat
deriving DecidableEq, Repr

/-- Attributes of a suit relevant to `cardCount`.  The source matches the suit
name against the regex `/Black|Dark|Gray|Cocoa/`; the match outcome is modelled
as the boolean attribute `dark`. -/
structure Suit where
  dark : Bool := false
deriving DecidableEq, Repr

/-- Variant rules consumed by `cardCount` (from `src/variants.js`). -/
structure Variant where
  suits : List Suit := []
  criticalRank : Option Nat := none
deriving DecidableEq, Repr

/-- Total number of copies of an identity (`cardCount` in `src/variants.js`):
dark suits and the variant's critical rank have a single copy, otherwise the
per-rank distribution is `[3, 2, 2, 2, 1]`.  An out-of-range rank yields the
default `0` (the source would index `undefined`). -/
def cardCount (variant : Variant) (id : Identity) : Nat :=
  if (variant.suits.get? id.suitIndex).any Suit.dark then 1
  else if variant.criticalRank == some id.rank then 1
  else [3, 2, 2, 2, 1].getD (id.rank - 1) 0

/-- Per-card belief record (a "thought").  Fields follow the data model of the
spec: ground-truth identity as recorded for this perspective (`-1` when
unknown), the `possible` and `inferred` identity sets, and status flags. -/
structure Thought where
  order : Nat := 0
  suitIndex : Int := -1
  rank : Int := -1
  possible : List Identity := []
  inferred : List Identity := []
  clued : Bool := false
  newly_clued : Bool := false
  finessed : Bool := false
  chop_moved : Bool := false
  reset : Bool := false
  rewinded : Bool := false
deriving DecidableEq, Repr

instance : Inhabited Thought := ⟨{}⟩

/-- Modelled from the spec: `Card.identity(options)` of the missing `Card.js`.
A card's identity is determined when its `possible` set is a singleton, when
its recorded ground-truth fields are filled in (suppressed under the
`symmetric` option), or, under the `infer` option, when its `inferred` set is
a singleton. -/
def identityOfOpt (t : Thought) (infer symmetric : Bool) : Option Identity :=
  if t.possible.length == 1 then t.possible.head?
  else if !symmetric && t.suitIndex != -1 && t.rank != -1 then
    some ⟨t.suitIndex.toNat, t.rank.toNat⟩
  else if infer && t.inferred.length == 1 then t.inferred.head?
  else none

/-- Modelled from the spec: `Card.identity` with default options. -/
def identityOf (t : Thought) (infer : Bool) : Option Identity :=
  identityOfOpt t infer false

/-- Modelled from the spec: `Card.matches(identity, options)` of the missing
`Card.js`.  When the card's identity is undetermined the result is the
`assume` option, otherwise it is equality of identities. -/
def thoughtMatches (t : Thought) (id : Identity) (assume infer symmetric : Bool) : Bool :=
  match identityOfOpt t infer symmetric with
  | some i => i == id
  | none => assume

/-- Modelled from the spec: `Card.matches_inferences()` of the missing
`Card.js` — the belief is self-consistent when its identity is undetermined or
its `inferred` set still contains its identity. -/
def matchesInferences (t : Thought) : Bool :=
  match identityOf t false with
  | none => true
  | some i => t.inferred.contains i

/-- Authoritative state as consumed by `src/basics/hanabi-util.js`
(the older-era module where hands hold belief-carrying cards and
`hypo_stacks` is per player). -/
structure OState where
  play_stacks : List Nat := []
  max_ranks : List Nat := []
  discard_stacks : List (List Nat) := []
  hands : List (List Thought) := []
  variant : Variant := {}
  hypo_stacks : List (List Nat) := []
  ourPlayerIndex : Nat := 0
  numPlayers : Nat := 0
  score : Nat := 0
  cardsLeft : Nat := 0
deriving DecidableEq, Repr

/-- Number of copies of an identity on the play stack or in the discard pile
(`baseCount` in `hanabi-util.js`). -/
def baseCount (state : OState) (id : Identity) : Nat :=
  (match state.play_stacks.get? id.suitIndex with
   | some v => if id.rank ≤ v then 1 else 0
   | none => 0) +
  (match (state.discard_stacks.get? id.suitIndex).bind (fun s => s.get? (id.rank - 1)) with
   | some d => d
   | none => 0)

/-- Whether an identity is currently critical (`isCritical` in
`hanabi-util.js`): the discard count equals the total copy count minus one. -/
def isCritical (state : OState) (id : Identity) : Bool :=
  (state.discard_stacks.get? id.suitIndex).bind (fun s => s.get? (id.rank - 1))
    == some (cardCount state.variant id - 1)

/-- Whether an identity is basic trash (`isBasicTrash` in `hanabi-util.js`):
already played, or above the suit's maximum attainable rank. -/
def isBasicTrash (state : OState) (id : Identity) : Bool :=
  (match state.play_stacks.get? id.suitIndex with
   | some v => id.rank ≤ v
   | none => false) ||
  (match state.max_ranks.get? id.suitIndex with
   | some m => decide (m < id.rank)
   | none => false)

/-- Distance of an identity from playable (`playableAway` in
`hanabi-util.js`); `0` means currently playable. -/
def playableAway (state : OState) (id : Identity) : Int :=
  (id.rank : Int) - ((state.play_stacks.getD id.suitIndex 0 : Int) + 1)

/-- Modelled from the spec: `Hand.findCards(identity, options)` of the missing
`Hand.js` — the cards of the hand whose identity, under the given options, is
exactly the one sought. -/
def findCards (hand : List Thought) (id : Identity) (infer symmetric : Bool) : List Thought :=
  hand.filter (fun c => thoughtMatches c id false infer symmetric)

/-- Cards in all hands matching an identity (`visibleFind` in
`hanabi-util.js`), with the per-hand `infer`/`symmetric` options derived from
the inferring player as in the source's defaults. -/
def visibleFind (state : OState) (inferringPlayerIndex : Nat) (id : Identity)
    (ignore : List Nat) : List Thought :=
  (List.range state.numPlayers).flatMap (fun i =>
    if ignore.contains i then []
    else match state.hands.get? i with
      | some hand =>
          findCards hand id
            ([inferringPlayerIndex, state.ourPlayerIndex].contains i)
            ([inferringPlayerIndex].contains i)
      | none => [])

/-- Whether an identity is already saved in someone's hand (`isSaved` in
`hanabi-util.js`). -/
def isSaved (state : OState) (inferringPlayerIndex : Nat) (id : Identity)
    (order : Int) (ignoreCM : Bool) : Bool :=
  (visibleFind state inferringPlayerIndex id []).any (fun c =>
    (c.order : Int) != order &&
    (c.finessed || c.clued || (if ignoreCM then false else c.chop_moved)) &&
    thoughtMatches c id true false false)

/-- Whether an identity is trash — basic trash or already saved (`isTrash` in
`hanabi-util.js`). -/
def isTrash (state : OState) (inferringPlayerIndex : Nat) (id : Identity)
    (order : Int) : Bool :=
  isBasicTrash state id || isSaved state inferringPlayerIndex id order false

/-- Whether an identity is a unique 2 on the board (`unique2` in
`hanabi-util.js`). -/
def unique2 (state : OState) (id : Identity) : Bool :=
  id.rank == 2 &&
  (match state.play_stacks.get? id.suitIndex with
   | some v => decide (v < 2)
   | none => false) &&
  (visibleFind state state.ourPlayerIndex id []).length == 1 &&
  !((state.hands.getD state.ourPlayerIndex []).any
      (fun c => thoughtMatches c id false true false))

/-- Value of a resolved identity (`cardValue` in `hanabi-util.js`, the
branches after the unknown-own-card case): `0` for trash or visible
duplicates, `5` for criticals, `4` for a unique 2, otherwise
`5 - (rank - hypo stack)`. -/
def cardValueId (state : OState) (id : Identity) (order : Int) : ℚ :=
  if isTrash state state.ourPlayerIndex id order ||
      (visibleFind state state.ourPlayerIndex id []).length > 1 then 0
  else if isCritical state id then 5
  else if unique2 state id then 4
  else 5 - ((id.rank : ℚ) -
    (((state.hypo_stacks.getD state.ourPlayerIndex []).getD id.suitIndex 0 : Nat) : ℚ))

/-- Argument of `cardValue`: either a bare identity or a belief-carrying card
(the source distinguishes them with `card instanceof Card`). -/
inductive CardArg where
  | basic (id : Identity)
  | card (t : Thought)
deriving DecidableEq, Repr

/-- Heuristic value of a card (`cardValue` in `hanabi-util.js`).  An unknown
card in our own hand (`suitIndex = -1` on a belief-carrying card) is valued as
the average over its `possible` identities; the recursive calls pass the
default `order = -1`.  The source is a single recursive function; the
non-recursive branches are split into `cardValueId` above. -/
def cardValue (state : OState) (c : CardArg) (order : Int) : ℚ :=
  match c with
  | .basic id => cardValueId state id order
  | .card t =>
    if t.suitIndex == -1 then
      ((t.possible.map (fun p => cardValueId state p (-1))).sum) / (t.possible.length : ℚ)
    else cardValueId state ⟨t.suitIndex.toNat, t.rank.toNat⟩ order

/-- Concrete state for the `play_stacks = [3,0,0]` example. -/
def c1State : OState :=
  { play_stacks := [3, 0, 0], max_ranks := [5, 5, 5],
    discard_stacks := [[0,0,0,0,0],[0,0,0,0,0],[0,0,0,0,0]],
    variant := { suits := [{}, {}, {}] }, numPlayers := 2,
    hands := [[], []], hypo_stacks := [[3,0,0],[3,0,0]] }

/-- Concrete state for the criticality example: two rank-1 copies of suit 0
discarded. -/
def c8State : OState :=
  { play_stacks := [0, 0, 0], max_ranks := [5, 5, 5],
    discard_stacks := [[2,0,0,0,0],[0,0,0,0,0],[0,0,0,0,0]],
    variant := { suits := [{}, {}, {}] }, numPlayers := 2,
    hands := [[], []], hypo_stacks := [[0,0,0],[0,0,0]] }

/-- Ground-truth card as drawn (`ActualCard`): order, identity fields (`-1`
when hidden), clue status and the action index at which it was drawn. -/
structure ActualCard where
  order : Nat := 0
  suitIndex : Int := -1
  rank : Int := -1
  clued : Bool := false
  newly_clued : Bool := false
  drawn_index : Nat := 0
deriving DecidableEq, Repr

instance : Inhabited ActualCard := ⟨{}⟩

/-- Modelled from the spec: `ActualCard.identity()` of the missing `Card.js`
— the identity when the ground truth is filled in, else undetermined. -/
def actualIdentity (c : ActualCard) : Option Identity :=
  if c.suitIndex != -1 && c.rank != -1 then some ⟨c.suitIndex.toNat, c.rank.toNat⟩
  else none

/-- Modelled from the spec: `ActualCard.matches(identity, { assume: true })`
— an unknown ground truth is assumed to match. -/
def actualMatchesAssume (c : ActualCard) (id : Identity) : Bool :=
  match actualIdentity c with
  | some i => i == id
  | none => true

/-- Modelled from the spec: `ActualCard.matches(identity)` without options —
an unknown ground truth does not match. -/
def actualMatchesId (c : ActualCard) (id : Identity) : Bool :=
  match actualIdentity c with
  | some i => i == id
  | none => false

/-- Authoritative state as consumed by `src/basics/Player.js` and the
playful-sieve convention (hands of ground-truth cards, a deck indexed by
order). -/
structure GState where
  play_stacks : List Nat := []
  max_ranks : List Nat := []
  discard_stacks : List (List Nat) := []
  hands : List (List ActualCard) := []
  deck : List ActualCard := []
  variant : Variant := {}
  clue_tokens : Nat := 8
  ourPlayerIndex : Nat := 0
  early_game : Bool := false
deriving DecidableEq, Repr

/-- Deck lookup by order (`state.deck[order]`). -/
def deckAt (state : GState) (order : Nat) : ActualCard :=
  (state.deck.get? order).getD default

/-- All cards currently held, in hand order (`state.hands.flat()`). -/
def handsJoin (state : GState) : List ActualCard :=
  state.hands.flatten

/-- One element of a connection chain. -/
structure Connection where
  reacting : Nat := 0
  card : ActualCard := {}
  hidden : Bool := false
deriving DecidableEq, Repr

/-- A pending hypothesis that a chain of plays will confirm an inference. -/
structure WaitingConnection where
  connections : List Connection := []
  conn_index : Nat := 0
  focused_card : ActualCard := {}
  inference : Identity := ⟨0, 0⟩
  action_index : Nat := 0
  fake : Bool := false
deriving DecidableEq, Repr

/-- A group of cards whose identities are collectively resolved. -/
structure Link where
  cards : List ActualCard := []
  identities : List Identity := []
  promised : Bool := false
deriving DecidableEq, Repr

/-- A perspective's belief state (`Player` in `src/basics/Player.js`). -/
structure Player where
  playerIndex : Int := 0
  thoughts : List Thought := []
  links : List Link := []
  waiting_connections : List WaitingConnection := []
  hypo_stacks : List Nat := []
  unknown_plays : List Nat := []
deriving DecidableEq, Repr

/-- Thought lookup by order (`this.thoughts[order]`). -/
def thoughtAt (thoughts : List Thought) (order : Nat) : Thought :=
  (thoughts.get? order).getD default

/-- Modelled from the spec: the `saved` getter of the missing `Card.js` — a
card committed by convention (clued, finessed, or chop moved). -/
def thoughtSaved (t : Thought) : Bool :=
  t.clued || t.finessed || t.chop_moved

/-- Copies of an identity on the play or discard stacks, for the modern state
shape (same computation as `baseCount`). -/
def baseCountG (state : GState) (id : Identity) : Nat :=
  (match state.play_stacks.get? id.suitIndex with
   | some v => if id.rank ≤ v then 1 else 0
   | none => 0) +
  (match (state.discard_stacks.get? id.suitIndex).bind (fun s => s.get? (id.rank - 1)) with
   | some d => d
   | none => 0)

/-- Modelled from the spec: the modern `unknownIdentities(state, player,
identity)` — total copies minus played/discarded copies minus copies visible
to this perspective (cards across all hands known or inferred to be exactly
this identity). -/
def unknownIdentitiesP (state : GState) (p : Player) (id : Identity) : Int :=
  (cardCount state.variant id : Int) - (baseCountG state id : Int) -
    (((handsJoin state).filter
        (fun c => thoughtMatches (thoughtAt p.thoughts c.order) id false true false)).length : Int)

/-- Orders of cards in unresolved links (`Player.linkedOrders`): links holding
more cards than their identities have unaccounted copies. -/
def linkedOrders (state : GState) (p : Player) : List Nat :=
  (p.links.filter (fun l =>
      (l.identities.map (unknownIdentitiesP state p)).sum < (l.cards.length : Int))).flatMap
    (fun l => l.cards.map (fun c => c.order))

/-- Observable event of one `update_hypo_stacks` iteration: a stack advance
(recording the previous stack value and whether it came from a promised
link), or a skipped candidate — the source's `logger.warn` branches. -/
inductive HypoEvent where
  | advance (suitIndex prev : Nat) (id : Identity) (order : Nat) (viaLink : Bool)
  | skip (id : Identity) (order : Nat)
deriving DecidableEq, Repr

/-- Accumulator of the `update_hypo_stacks` fixed-point loop: the working
hypo stacks, the identities claimed this run (`good_touch_elim`), the unknown
plays, the change flag, and the event log. -/
structure HypoAcc where
  hypo_stacks : List Nat := []
  gte : List Identity := []
  unknown_plays : List Nat := []
  found : Bool := false
  events : List HypoEvent := []
deriving DecidableEq, Repr

/-- The `delayed_playable` check of `update_hypo_stacks` on a list of bare
identities: after discounting identities already claimed this run, some
candidate remains and every remaining candidate is exactly one above the
current hypothetical stack of its suit. -/
def delayedPlayable (gte : List Identity) (hypo : List Nat) (poss : List Identity) : Bool :=
  let remaining := poss.filter (fun c => !(gte.any (fun e => c == e)))
  !remaining.isEmpty && remaining.all (fun c =>
    match hypo.get? c.suitIndex with
    | some v => v + 1 == c.rank
    | none => false)

/-- The `delayed_playable([card])` call on the thought itself (the finesse
case), which reads the thought's recorded identity fields directly. -/
def delayedPlayableCard (gte : List Identity) (hypo : List Nat) (t : Thought) : Bool :=
  let remaining := [t].filter (fun c => !(gte.any (fun e => thoughtMatches c e false false false)))
  !remaining.isEmpty && remaining.all (fun c =>
    decide (0 ≤ c.suitIndex) &&
    (match hypo.get? c.suitIndex.toNat with
     | some v => (v : Int) + 1 == c.rank
     | none => false))

/-- Waiting connections on this order that are predicted to be proven false
(the `fake_wcs` filter of `update_hypo_stacks`). -/
def fakeWcs (state : GState) (wcs : List WaitingConnection) (order : Nat) :
    List WaitingConnection :=
  wcs.filter (fun wc => wc.focused_card.order == order &&
    (wc.fake || !(actualMatchesAssume (deckAt state wc.focused_card.order) wc.inference)))

/-- Whether a waiting connection's remaining chain (indices at or after
`conn_index`) references the given order. -/
def wcReferences (wc : WaitingConnection) (order : Nat) : Bool :=
  (List.range wc.connections.length).any (fun idx =>
    wc.conn_index ≤ idx &&
    ((wc.connections.get? idx).any (fun conn => conn.card.order == order)))

/-- Set-style insertion into the `unknown_plays` accumulator. -/
def insertOrder (l : List Nat) (o : Nat) : List Nat :=
  if l.contains o then l else l ++ [o]

/-- The advance-or-warn step shared by the identified-card and promised-link
branches of `update_hypo_stacks`: advance the suit's stack when the candidate
rank is exactly one above it, otherwise log a warning and change nothing. -/
def tryAdvance (acc : HypoAcc) (id : Identity) (order : Nat) (viaLink : Bool)
    (up : List Nat) : HypoAcc :=
  match acc.hypo_stacks.get? id.suitIndex with
  | some v =>
    if v + 1 == id.rank then
      { hypo_stacks := acc.hypo_stacks.set id.suitIndex id.rank,
        gte := acc.gte ++ [id],
        unknown_plays := up,
        found := true,
        events := acc.events ++ [.advance id.suitIndex v id order viaLink] }
    else { acc with unknown_plays := up, events := acc.events ++ [.skip id order] }
  | none => { acc with unknown_plays := up, events := acc.events ++ [.skip id order] }

/-- The common-perspective consistency guard of `update_hypo_stacks`
(the `playerIndex === -1` block): the perspective identity contradicts the
deck's ground truth, or the ground-truth identity is already attributed to an
order in `unknown_plays`, or the order only appears in fake ambiguous waiting
connections. -/
def commonGuard (state : GState) (wcs : List WaitingConnection) (acc : HypoAcc)
    (card : Thought) (order : Nat) : Bool :=
  let id := identityOf card true
  let actual_id := actualIdentity (deckAt state order)
  (match id, actual_id with
   | some i, some a => !(i == a)
   | _, _ => false) ||
  (actual_id.isSome &&
    (handsJoin state).any (fun c => acc.unknown_plays.contains c.order &&
      (match actual_id with
       | some a => actualMatchesId c a
       | none => false))) ||
  ((wcs.any (fun wc =>
      !(actualMatchesAssume (deckAt state wc.focused_card.order) wc.inference) &&
      wcReferences wc order)) &&
   !(wcs.any (fun wc =>
      actualMatchesAssume (deckAt state wc.focused_card.order) wc.inference &&
      wcReferences wc order)))

/-- One iteration of the inner scan of `update_hypo_stacks` on a single
order: skip unsaved/claimed/linked cards, discount fake waiting connections,
test delayed playability, apply the common-perspective guard, then either add
an unknown play (resolving a completed promised link) or advance the stack
with the identified identity. -/
def processOrder (state : GState) (pIdx : Int) (thoughts : List Thought)
    (links : List Link) (wcs : List WaitingConnection) (linked : List Nat)
    (acc : HypoAcc) (order : Nat) : HypoAcc :=
  let card := thoughtAt thoughts order
  if !(thoughtSaved card) || acc.gte.any (fun e => thoughtMatches card e false false false) ||
      linked.contains order then acc
  else
    let fw := fakeWcs state wcs order
    let diff_inferred := card.inferred.filter (fun i => !(fw.any (fun wc => wc.inference == i)))
    let diff : Thought := { card with inferred := diff_inferred }
    if !(matchesInferences diff &&
        (delayedPlayable acc.gte acc.hypo_stacks card.possible ||
         delayedPlayable acc.gte acc.hypo_stacks diff_inferred ||
         (diff.finessed && delayedPlayableCard acc.gte acc.hypo_stacks card))) then acc
    else if pIdx == -1 && commonGuard state wcs acc card order then acc
    else
      match identityOf card true with
      | none =>
        let up := insertOrder acc.unknown_plays order
        match links.find? (fun l => l.promised && l.cards.any (fun c => c.order == order)) with
        | some pl =>
          if pl.cards.all (fun c => up.contains c.order) then
            match pl.identities.head? with
            | some lid => tryAdvance acc lid order true up
            | none => { acc with unknown_plays := up }
          else { acc with unknown_plays := up }
        | none => { acc with unknown_plays := up }
      | some id => tryAdvance acc id order false acc.unknown_plays

/-- Orders scanned by one pass (`for (const { order } of state.hands.flat())`). -/
def ordersOf (state : GState) : List Nat :=
  (handsJoin state).map (fun c => c.order)

/-- One full pass of the scan over every held card. -/
def scanPass (state : GState) (pIdx : Int) (thoughts : List Thought)
    (links : List Link) (wcs : List WaitingConnection) (linked : List Nat)
    (acc : HypoAcc) : HypoAcc :=
  (ordersOf state).foldl (processOrder state pIdx thoughts links wcs linked) acc

/-- The `while (found_new_playable)` loop, with explicit fuel.  The source
loop terminates because each continuing pass advances some stack by one and
at most `5 × suitCount` advances exist; the fuel below covers that bound. -/
def hypoLoop (state : GState) (pIdx : Int) (thoughts : List Thought)
    (links : List Link) (wcs : List WaitingConnection) (linked : List Nat) :
    Nat → HypoAcc → HypoAcc
  | 0, acc => acc
  | fuel + 1, acc =>
    if acc.found then
      hypoLoop state pIdx thoughts links wcs linked fuel
        (scanPass state pIdx thoughts links wcs linked { acc with found := false })
    else acc

/-- Fuel sufficient for the fixed point: one pass more than the maximum
number of advances. -/
def hypoFuel (state : GState) : Nat :=
  5 * state.play_stacks.length + 2

/-- The full `update_hypo_stacks` computation: reset the working stacks to
the play stacks, then scan until no new playable is found.  Returns the final
accumulator (stacks, unknown plays, event log). -/
def runHypo (state : GState) (p : Player) : HypoAcc :=
  hypoLoop state p.playerIndex p.thoughts p.links p.waiting_connections
    (linkedOrders state p) (hypoFuel state)
    { hypo_stacks := state.play_stacks, gte := [], unknown_plays := [],
      found := true, events := [] }

/-- `Player.update_hypo_stacks(state)`: writes the recomputed hypo stacks and
unknown plays back into the perspective. -/
def update_hypo_stacks (state : GState) (p : Player) : Player :=
  let acc := runHypo state p
  { p with hypo_stacks := acc.hypo_stacks, unknown_plays := acc.unknown_plays }

/-- Deck/hand cards for the promised-link scenario: two clued cards whose
ground truths are red 3 and yellow 2. -/
def c4Card0 : ActualCard := { order := 0, suitIndex := 0, rank := 3, clued := true }

def c4Card1 : ActualCard := { order := 1, suitIndex := 1, rank := 2, clued := true }

/-- State for the promised-link scenario: two suits, empty stacks, one hand
holding both cards. -/
def c4State : GState :=
  { play_stacks := [0, 0], max_ranks := [5, 5],
    discard_stacks := [[0,0,0,0,0],[0,0,0,0,0]],
    hands := [[c4Card0, c4Card1]],
    deck := [c4Card0, c4Card1],
    variant := { suits := [{}, {}] } }

/-- A clued thought whose identity is unresolved between the two rank-1
identities. -/
def c4Thought (o : Nat) : Thought :=
  { order := o, possible := [⟨0,1⟩, ⟨1,1⟩], inferred := [⟨0,1⟩, ⟨1,1⟩], clued := true }

/-- Common perspective holding a promised link on both cards, declared to be
the red 1 — contradicting both deck ground truths. -/
def c4Player : Player :=
  { playerIndex := -1,
    thoughts := [c4Thought 0, c4Thought 1],
    links := [{ cards := [c4Card0, c4Card1], identities := [⟨0,1⟩], promised := true }],
    waiting_connections := [],
    hypo_stacks := [0, 0], unknown_plays := [] }

/-- The full state of a `PlayfulSieve` game object, with the constructor
arguments, the properties copied by `minimalCopy`, and the bookkeeping fields
(`copyDepth`, `notes`, `rewinds`) that the constructor re-initializes. -/
structure PSState where
  tableID : Nat := 0
  playerNames : List String := []
  ourPlayerIndex : Nat := 0
  suits : List String := []
  in_progress : Bool := false
  play_stacks : List Nat := []
  hypo_stacks : List (List Nat) := []
  discard_stacks : List (List Nat) := []
  max_ranks : List Nat := []
  hands : List (List ActualCard) := []
  turn_count : Nat := 0
  clue_tokens : Nat := 8
  strikes : Nat := 0
  early_game : Bool := true
  rewindDepth : Nat := 0
  cardsLeft : Nat := 0
  locked_shifts : Nat := 0
  copyDepth : Nat := 0
  notes : List String := []
  rewinds : Nat := 0
deriving DecidableEq, Repr

/-- Modelled from the spec: the `PlayfulSieve`/`State` constructor (the base
`State.js` is not under src/) — fresh bookkeeping with the four constructor
arguments installed; every other field takes its initial value. -/
def newPlayfulSieve (tableID : Nat) (playerNames : List String)
    (ourPlayerIndex : Nat) (suits : List String) (in_progress : Bool) : PSState :=
  { tableID := tableID, playerNames := playerNames, ourPlayerIndex := ourPlayerIndex,
    suits := suits, in_progress := in_progress }

/-- `PlayfulSieve.minimalCopy()`: constructs a fresh state, throws once the
clone depth exceeds 3, otherwise copies the minimal properties and records a
clone depth one greater than the original's.  The embedding is pure, so the
original is left untouched by construction. -/
def minimalCopy (s : PSState) : Except String PSState :=
  let newState := newPlayfulSieve s.tableID s.playerNames s.ourPlayerIndex s.suits s.in_progress
  if s.copyDepth > 3 then .error "Maximum recursive depth reached."
  else .ok { newState with
    play_stacks := s.play_stacks, hypo_stacks := s.hypo_stacks,
    discard_stacks := s.discard_stacks, max_ranks := s.max_ranks,
    hands := s.hands, turn_count := s.turn_count, clue_tokens := s.clue_tokens,
    strikes := s.strikes, early_game := s.early_game, rewindDepth := s.rewindDepth,
    cardsLeft := s.cardsLeft, locked_shifts := s.locked_shifts,
    copyDepth := s.copyDepth + 1 }

/-- A clue (type `0` = colour, `1` = rank, as in `constants.js`). -/
structure Clue where
  type : Nat := 0
  value : Nat := 0
  target : Nat := 0
deriving DecidableEq, Repr

/-- A clue action as built by `determine_clue`. -/
structure ClueAction where
  giver : Nat := 0
  target : Nat := 0
  list : List Nat := []
  clue : Clue := {}
deriving DecidableEq, Repr

/-- Statistics of a clue (`ClueResult` in `types.js`); `finesses` and
`playables` record (player index, card order) pairs. -/
structure ClueResultS where
  elim : Nat := 0
  new_touched : Nat := 0
  bad_touch : Nat := 0
  trash : Nat := 0
  finesses : List (Nat × Nat) := []
  playables : List (Nat × Nat) := []
  remainder : ℚ := 0
deriving DecidableEq, Repr

/-- A game: authoritative state plus the common and own perspectives. -/
structure Game where
  state : GState := {}
  common : Player := {}
  me : Player := {}
deriving DecidableEq, Repr

/-- Options accepted by `determine_clue` / `direct_clues`. -/
structure ClueOptions where
  excludeColour : Bool := false
  excludeRank : Bool := false
  save : Bool := false
deriving DecidableEq, Repr

/-- The action returned by `determine_clue` (clue fields plus its result). -/
structure ClueChoice where
  type : Nat := 0
  value : Nat := 0
  target : Nat := 0
  result : ClueResultS := {}
deriving DecidableEq, Repr

/-- Hand lookup (`state.hands[target]`). -/
def handAt (state : GState) (target : Nat) : List ActualCard :=
  state.hands.getD target []

/-- Modelled from the spec: the modern `isBasicTrash(state, identity)` over
possibly-unknown identity fields; comparisons against an out-of-range or
unknown index are false, as in the source's `undefined` arithmetic. -/
def isBasicTrashNew (state : GState) (suitIndex rank : Int) : Bool :=
  (decide (0 ≤ suitIndex) &&
    (match state.play_stacks.get? suitIndex.toNat with
     | some v => rank ≤ (v : Int)
     | none => false)) ||
  (decide (0 ≤ suitIndex) &&
    (match state.max_ranks.get? suitIndex.toNat with
     | some m => decide ((m : Int) < rank)
     | none => false))

/-- Modelled from the spec: matching a thought against identity fields given
as integers, with an `assume` fallback for undetermined identities. -/
def thoughtMatchesInt (t : Thought) (suitIndex rank : Int) (assume infer : Bool) : Bool :=
  match identityOfOpt t infer false with
  | some i => (i.suitIndex : Int) == suitIndex && (i.rank : Int) == rank
  | none => assume

/-- Modelled from the spec: the modern `isSaved(state, player, identity,
order)` — some other held card is committed (clued/finessed/chop-moved) and
known or assumed to match the identity, judged from the player's thoughts. -/
def isSavedNew (state : GState) (p : Player) (suitIndex rank : Int) (order : Int) : Bool :=
  (handsJoin state).any (fun c =>
    (c.order : Int) != order &&
    (let t := thoughtAt p.thoughts c.order
     (t.finessed || t.clued || t.chop_moved) && thoughtMatchesInt t suitIndex rank true false))

/-- Modelled from the spec: the modern `isTrash(state, player, identity,
order)` — basic trash or already saved. -/
def isTrashNew (state : GState) (p : Player) (suitIndex rank : Int) (order : Int) : Bool :=
  isBasicTrashNew state suitIndex rank || isSavedNew state p suitIndex rank order

/-- Modelled from the spec: `card.matches(visible_card)` comparing a
thought's determined identity against another thought's recorded fields. -/
def thoughtMatchesThought (t v : Thought) : Bool :=
  match identityOf t false with
  | some i => (i.suitIndex : Int) == v.suitIndex && (i.rank : Int) == v.rank
  | none => false

/-- Modelled from the spec: the external collaborators of the playful-sieve
clue pipeline whose source files are not under src/ — the clue simulator
(`game.simulate_clue`), focus determination, clue safety, touch computation,
candidate-clue generation, scoring inputs, and the clue-value function. -/
structure Collab where
  simulate_clue : Game → ClueAction → Game
  determine_focus : List ActualCard → Player → List Nat → ActualCard × Bool
  clue_safe : Game → Player → Clue → Bool
  clueTouched : List ActualCard → Variant → Clue → List ActualCard
  direct_clues : Variant → Nat → ActualCard → ClueOptions → List Clue
  find_clue_value : ClueResultS → ℚ
  elim_result : Player → Player → List ActualCard → List Nat → Nat × Nat
  bad_touch_result : Game → Player → Nat → Nat → Nat × Nat
  playables_result : GState → Player → Player → List (Nat × Nat) × List (Nat × Nat)
  chopAfterClue : Player → List ActualCard → Option ActualCard
  cardValueME : GState → Player → Thought → Nat → ℚ
  thinksTrashLen : Player → GState → Nat → Nat

/-- The per-card incorrectness predicate of `evaluate_clue`: the focused card
must not be reset and must match its inferences; any other touched card must
either still match its beliefs, have been uncertain before the clue, be chop
moved, have become known trash, or be an accepted bad touch. -/
def clueIncorrect (game hypo_game : Game) (target_card : ActualCard)
    (bad_touch_cards : List ActualCard) (c : ActualCard) : Bool :=
  let card := thoughtAt hypo_game.common.thoughts c.order
  let visible_card := thoughtAt hypo_game.me.thoughts c.order
  if c.order == target_card.order then
    card.reset || !(matchesInferences card)
  else
    let old_card := thoughtAt game.common.thoughts c.order
    !((!card.reset && ((identityOf card false).isNone || card.possible.length == 1 ||
          thoughtMatchesThought card visible_card)) ||
      old_card.reset || !(matchesInferences old_card) || old_card.inferred.length == 0 ||
      card.chop_moved ||
      (c.clued && isTrashNew game.state game.me visible_card.suitIndex visible_card.rank (-1)) ||
      bad_touch_cards.any (fun b => b.order == c.order) ||
      card.possible.all (fun id =>
        isTrashNew hypo_game.state hypo_game.common (id.suitIndex : Int) (id.rank : Int) (c.order : Int)))

/-- `evaluate_clue` of `playful-sieve.js`: simulate the clue from the
receiver's perspective and reject it (`none`) when some touched card's
simulated belief is incorrect — in particular when the focused card was reset
or no longer matches its inferences. -/
def evaluate_clue (C : Collab) (game : Game) (action : ClueAction) (target : Nat)
    (target_card : ActualCard) (bad_touch_cards : List ActualCard) : Option Game :=
  let hypo_game := C.simulate_clue game action
  match (handAt game.state target).find?
      (clueIncorrect game hypo_game target_card bad_touch_cards) with
  | some _ => none
  | none => some hypo_game

/-- `get_result` of `playful-sieve.js`, with its inputs supplied by the
collaborators: collects elimination, touch, bad-touch, trash, playable and
remainder statistics for an accepted clue. -/
def get_result (C : Collab) (game hypo_game : Game) (clue : Clue) (_giver : Nat) : ClueResultS :=
  let hand := handAt game.state clue.target
  let touch := C.clueTouched hand game.state.variant clue
  let list := touch.map (fun c => c.order)
  let fc := C.determine_focus hand game.common list
  let er := C.elim_result game.common hypo_game.common hand list
  let bt := C.bad_touch_result hypo_game hypo_game.common clue.target fc.1.order
  let pr := C.playables_result hypo_game.state game.common hypo_game.common
  let new_chop := C.chopAfterClue hypo_game.common hand
  let remainder :=
    match new_chop with
    | some ch => C.cardValueME hypo_game.state hypo_game.me (thoughtAt game.me.thoughts ch.order) ch.order
    | none => if C.thinksTrashLen hypo_game.common hypo_game.state clue.target > 0 then 0 else 4
  { elim := er.2, new_touched := er.1, bad_touch := bt.1, trash := bt.2,
    finesses := pr.1, playables := pr.2, remainder := remainder }

/-- The clue evaluation performed inside `determine_clue`'s loop for one
candidate clue: compute the touch, the bad-touch list and the clue action,
then call `evaluate_clue`. -/
def evalClueFull (C : Collab) (game : Game) (target : Nat) (target_card : ActualCard)
    (clue : Clue) : Option Game :=
  let hand := handAt game.state target
  let touch := C.clueTouched hand game.state.variant clue
  let list := touch.map (fun c => c.order)
  let bad_touch_cards := touch.filter (fun c => !c.clued &&
    (match identityOf (thoughtAt game.me.thoughts c.order) true with
     | some i => isTrashNew game.state game.me (i.suitIndex : Int) (i.rank : Int) (c.order : Int)
     | none => false))
  let action : ClueAction :=
    { giver := game.state.ourPlayerIndex, target := target, list := list, clue := clue }
  evaluate_clue C game action target target_card bad_touch_cards

/-- `Utils.maxOn`: the first element attaining the maximal value. -/
def maxOn {α : Type} : List α → (α → ℚ) → Option α
  | [], _ => none
  | x :: xs, f =>
    match maxOn xs f with
    | none => some x
    | some y => if f x < f y then some y else some x

/-- The body of `determine_clue`'s candidate loop for one clue: check the
focus, check safety (unless searching for a save), evaluate the clue, and on
acceptance compute its result with the remainder override. -/
def clueCandidate (C : Collab) (game : Game) (target : Nat) (target_card : ActualCard)
    (options : ClueOptions) (clue : Clue) : Option (Clue × ClueResultS) :=
  let hand := handAt game.state target
  let touch := C.clueTouched hand game.state.variant clue
  let list := touch.map (fun c => c.order)
  let fc := C.determine_focus hand game.common list
  if fc.1.order != target_card.order then none
  else if !options.save && !(C.clue_safe game game.me clue) then none
  else
    match evalClueFull C game target target_card clue with
    | none => none
    | some hypo_game =>
      let result := get_result C game hypo_game clue game.state.ourPlayerIndex
      let remainder :=
        if fc.2 && (!(C.clue_safe game game.me clue) || game.state.clue_tokens ≤ 2) then
          result.remainder
        else 0
      some (clue, { result with remainder := remainder })

/-- `determine_clue` of `playful-sieve.js`: enumerate candidate clues, keep
those that focus the target card, are safe (unless searching for a save), and
whose simulation is accepted by `evaluate_clue`; return the best by clue
value, or nothing. -/
def determine_clue (C : Collab) (game : Game) (target : Nat) (target_card : ActualCard)
    (options : ClueOptions) : Option ClueChoice :=
  let possible_clues := C.direct_clues game.state.variant target target_card options
  let results := possible_clues.filterMap (clueCandidate C game target target_card options)
  match results with
  | [] => none
  | r :: rs =>
    (maxOn (r :: rs) (fun pr => C.find_clue_value pr.2)).map (fun pr =>
      { type := pr.1.type, value := pr.1.value, target := pr.1.target, result := pr.2 })

/-- Clue type constants (`CLUE.COLOUR` / `CLUE.RANK` of `constants.js`,
modelled from the spec; only their distinctness matters). -/
def CLUE_COLOUR : Nat := 0

def CLUE_RANK : Nat := 1

/-- One interpretation candidate produced by the focus search. -/
structure FocusPossibility where
  suitIndex : Nat := 0
  rank : Nat := 0
  save : Bool := false
  connections : List Connection := []
deriving DecidableEq, Repr

/-- The state fields read by `find_focus_possible` itself (the h-group era
keeps suit names as strings). -/
structure FState where
  suits : List String := []
deriving DecidableEq, Repr

/-- Modelled from the spec: the focus enumerators `find_colour_focus` and
`find_rank_focus` depend on `determine_focus` and `find_connecting`, whose
sources are not under src/; they are treated as opaque generators of
interpretation candidates. -/
structure FocusCollab where
  find_colour_focus : FState → Nat → ClueAction → List FocusPossibility
  find_rank_focus : FState → Nat → ClueAction → List FocusPossibility

/-- The duplicate test of the final filter: same suit index and same rank. -/
def samePairB (p q : FocusPossibility) : Bool :=
  p.suitIndex == q.suitIndex && p.rank == q.rank

/-- Whether the entry at index `i1` survives deduplication: no entry with the
same suit and rank occurs at a strictly later index. -/
def keepLast (l : List FocusPossibility) (i1 : Nat) (p1 : FocusPossibility) : Bool :=
  !(l.enum.any (fun pr => samePairB p1 pr.2 && i1 < pr.1))

/-- The deduplication filter at the end of `find_focus_possible`: remove
earlier duplicates, so that for each (suit, rank) only the last-generated
entry remains. -/
def dedupLastWins (l : List FocusPossibility) : List FocusPossibility :=
  (l.enum.filter (fun pr => keepLast l pr.1 pr.2)).map (fun pr => pr.2)

/-- The raw interpretation list of `find_focus_possible` before
deduplication: colour clues enumerate the rainbow suit (if present) and the
clued suit, rank clues enumerate by rank, and an omni suit is appended in
either case. -/
def rawFocus (C : FocusCollab) (state : FState) (action : ClueAction) :
    List FocusPossibility :=
  (if action.clue.type == CLUE_COLOUR then
    (if state.suits.contains "Rainbow" then
      C.find_colour_focus state (state.suits.indexOf "Rainbow") action
     else []) ++
    C.find_colour_focus state action.clue.value action
   else
    C.find_rank_focus state action.clue.value action) ++
  (if state.suits.contains "Omni" then
    C.find_colour_focus state (state.suits.indexOf "Omni") action
   else [])

/-- `find_focus_possible` of `focus-possible.js`: the raw interpretation
list with earlier duplicates removed (save interpretations are generated
after play interpretations, so they win). -/
def find_focus_possible (C : FocusCollab) (state : FState) (action : ClueAction) :
    List FocusPossibility :=
  dedupLastWins (rawFocus C state action)

/-- A discard action (`DiscardAction` in `types.js`). -/
structure DiscardAction where
  order : Nat := 0
  playerIndex : Nat := 0
  suitIndex : Nat := 0
  rank : Nat := 0
  failed : Bool := false
deriving DecidableEq, Repr

/-- Modelled from the spec: external collaborators of the discard
interpreter whose sources are not under src/ — the basic discard
application, the sarcastic-discard candidate search (and its belief side
effect), elimination restoration, hypo-stack undo and team elimination. -/
structure DiscardCollab where
  onDiscard : Game → DiscardAction → Game
  interpret_sarcastic : Game → DiscardAction → List ActualCard
  interpret_sarcastic_apply : Game → DiscardAction → Game
  restore_elim : Game → ActualCard → Game
  undo_hypo_stacks : Game → Identity → Game
  team_elim : Game → Game

/-- Index of the first connection at or after `conn_index` whose card has the
given order (the `findIndex` call of `interpret_discard`). -/
def dcConnIndex (wc : WaitingConnection) (order : Nat) : Option Nat :=
  (List.range wc.connections.length).find? (fun idx =>
    wc.conn_index ≤ idx &&
    ((wc.connections.get? idx).any (fun conn => conn.card.order == order)))

/-- Count of real (non-hidden) connections strictly before the discarded
connection. -/
def realConnects (conns : List Connection) (d : Nat) : Nat :=
  ((conns.take d).filter (fun conn => !conn.hidden)).length

/-- Whether a discarded rank is still useful: above the play stack and within
the maximum attainable rank. -/
def usefulDiscardRank (state : GState) (suitIndex rank : Nat) : Bool :=
  (match state.play_stacks.get? suitIndex with
   | some v => decide (v < rank)
   | none => false) &&
  (match state.max_ranks.get? suitIndex with
   | some m => decide (rank ≤ m)
   | none => false)

/-- The rewritten connection of a sarcastic reassignment: the same connection
pointing at the candidate card, reacting at the hand that holds it. -/
def sarcConnection (game : Game) (wc : WaitingConnection) (d : Nat) (s0 : ActualCard) :
    Connection :=
  match wc.connections.get? d with
  | some conn =>
    { conn with
      reacting := game.state.hands.findIdx (fun h => h.any (fun c => c.order == s0.order)),
      card := s0 }
  | none => {}

/-- The sarcastic-reassignment condition of `interpret_discard`: the
discarded connecting card was clued, its rank is still useful, the discard
was not a bomb, and the sarcastic search finds exactly one candidate. -/
def sarcCondition (game : Game) (action : DiscardAction) (sarcs : List ActualCard)
    (wc : WaitingConnection) (d : Nat) : Bool :=
  ((wc.connections.get? d).getD {}).card.clued &&
  usefulDiscardRank game.state action.suitIndex action.rank &&
  !action.failed && (sarcs.length == 1)

/-- Outcome of the waiting-connection scan in `interpret_discard`. -/
inductive ScanRes where
  | rewrite (wcIndex connIndex : Nat) (conn : Connection)
  | rewindTo (action_index conn_index order : Nat)
  | fallthrough (removed : List Nat)
deriving DecidableEq, Repr

/-- The scan loop of `interpret_discard` over the common waiting
connections: on finding a connection whose remaining chain holds the
discarded order, remove it; when no other waiting connection shares its
action index, either rewrite it onto the unique sarcastic candidate or
rewind with an ignore override counting the real connections before it. -/
def scanGo (game : Game) (action : DiscardAction) (sarcs : List ActualCard)
    (allwcs : List WaitingConnection) :
    List WaitingConnection → Nat → List Nat → ScanRes
  | [], _, removed => .fallthrough removed
  | wc :: rest, i, removed =>
    match dcConnIndex wc action.order with
    | none => scanGo game action sarcs allwcs rest (i + 1) removed
    | some d =>
      let removed1 := removed ++ [i]
      if (List.range allwcs.length).any (fun j =>
            ((allwcs.get? j).any (fun wc2 => wc2.action_index == wc.action_index)) &&
            !(removed1.contains j)) then
        scanGo game action sarcs allwcs rest (i + 1) removed1
      else
        if sarcCondition game action sarcs wc d then
          .rewrite i d (sarcConnection game wc d (sarcs.getD 0 {}))
        else
          .rewindTo wc.action_index (realConnects wc.connections d) action.order

/-- Outcome of `interpret_discard`: a rewind with an ignore override, a
sarcastic in-place rewrite (no rewind), a rewind with an identify override,
or normal completion. -/
inductive DiscardOutcome where
  | rewound (action_index conn_index order : Nat)
  | sarcasticRewrite (wcIndex connIndex : Nat) (conn : Connection)
  | identifyRewind (action_index order playerIndex : Nat) (suitIndex rank : Nat)
  | completed (g : Game)
deriving DecidableEq, Repr

/-- `interpret_discard` of the discard interpreter: apply the discard, scan
the waiting connections (possibly returning early with a rewrite or rewind),
then handle early-game ending, inference contradictions (identify rewind)
and useful discards. -/
def interpret_discard (C : DiscardCollab) (game : Game) (action : DiscardAction)
    (card : ActualCard) : DiscardOutcome :=
  let game1 := C.onDiscard game action
  let wcs := game1.common.waiting_connections
  match scanGo game1 action (C.interpret_sarcastic game1 action) wcs wcs 0 [] with
  | .rewrite i d conn => .sarcasticRewrite i d conn
  | .rewindTo ai ci o => .rewound ai ci o
  | .fallthrough removed =>
    let wcs2 := (wcs.enum.filter (fun pr => !(removed.contains pr.1))).map (fun pr => pr.2)
    let game2 : Game := { game1 with common := { game1.common with waiting_connections := wcs2 } }
    let game3 : Game :=
      if game2.state.early_game && !action.failed && !card.clued then
        { game2 with state := { game2.state with early_game := false } }
      else game2
    let thoughts_card := thoughtAt game3.common.thoughts action.order
    if !thoughts_card.rewinded &&
        (action.failed ||
         (!(matchesInferences thoughts_card) &&
          !(isTrashNew game3.state game3.me card.suitIndex card.rank (card.order : Int)))) then
      .identifyRewind card.drawn_index action.order action.playerIndex action.suitIndex action.rank
    else if card.clued && usefulDiscardRank game3.state action.suitIndex action.rank then
      let game4 := C.restore_elim game3 card
      let game5 :=
        if action.failed then C.undo_hypo_stacks game4 ⟨action.suitIndex, action.rank⟩
        else C.interpret_sarcastic_apply game4 action
      .completed (C.team_elim game5)
    else
      .completed (C.team_elim game3)

/-- Unknown own-hand thought used as witness input for the average-value
branch of `cardValue`. -/
def c9Thought : Thought :=
  { order := 0, possible := [⟨0, 1⟩, ⟨1, 2⟩], inferred := [⟨0, 1⟩, ⟨1, 2⟩], clued := true }

/-- Pointwise lower bound of one stack list by another (the play stacks never
exceed the hypo stacks). -/
def StacksGE (play hypo : List Nat) : Prop :=
  ∀ i v, play.get? i = some v → ∃ w, hypo.get? i = some w ∧ v ≤ w

/-- Invariant carried through the hypo-stack scan: the working stacks
dominate the play stacks and every recorded unknown play is a held order. -/
def HypoInv (play : List Nat) (os : List Nat) (acc : HypoAcc) : Prop :=
  StacksGE play acc.hypo_stacks ∧ ∀ o ∈ acc.unknown_plays, o ∈ os

/-- Concrete one-card game for exercising `determine_clue`. -/
def c3Card : ActualCard := { order := 0, suitIndex := 0, rank := 1 }

def c3GState : GState :=
  { play_stacks := [0], max_ranks := [5], discard_stacks := [[0,0,0,0,0]],
    hands := [[c3Card]], deck := [c3Card], variant := { suits := [{}] } }

def c3Game : Game :=
  { state := c3GState, common := { thoughts := [{ order := 0 }] },
    me := { thoughts := [{ order := 0 }] } }

/-- Simulated post-clue game: the focused card's belief resolves to red 1
without being reset. -/
def c3Hypo : Game :=
  { state := c3GState,
    common := { playerIndex := -1,
                thoughts := [{ order := 0, possible := [⟨0, 1⟩], inferred := [⟨0, 1⟩],
                               clued := true }] },
    me := { thoughts := [{ order := 0, possible := [⟨0, 1⟩], inferred := [⟨0, 1⟩],
                           clued := true }] } }

/-- Concrete collaborator bundle: one candidate clue, touching the single
card, simulated to the fixed hypothetical game. -/
def c3Collab : Collab :=
  { simulate_clue := fun _ _ => c3Hypo,
    determine_focus := fun _ _ _ => (c3Card, false),
    clue_safe := fun _ _ _ => true,
    clueTouched := fun _ _ _ => [c3Card],
    direct_clues := fun _ _ _ _ => [{ type := 1, value := 1, target := 0 }],
    find_clue_value := fun _ => 0,
    elim_result := fun _ _ _ _ => (0, 0),
    bad_touch_result := fun _ _ _ _ => (0, 0),
    playables_result := fun _ _ _ => ([], []),
    chopAfterClue := fun _ _ => none,
    cardValueME := fun _ _ _ _ => 0,
    thinksTrashLen := fun _ _ _ => 0 }

/-- Single-card state where the common perspective makes a direct (non-link)
advance: the card is clued and publicly known to be red 1. -/
def c4wCard : ActualCard := { order := 0, suitIndex := 0, rank := 1, clued := true }

def c4wState : GState :=
  { play_stacks := [0], max_ranks := [5], discard_stacks := [[0,0,0,0,0]],
    hands := [[c4wCard]], deck := [c4wCard], variant := { suits := [{}] } }

def c4wThought : Thought :=
  { order := 0, possible := [⟨0, 1⟩], inferred := [⟨0, 1⟩], clued := true }

/-- Concrete discard scenario: one waiting connection whose only connection
holds the discarded card (order 5), formed at action index 4. -/
def c5DiscardedCard : ActualCard :=
  { order := 5, suitIndex := 0, rank := 2, clued := true }

def c5WC : WaitingConnection :=
  { connections := [{ reacting := 0, card := c5DiscardedCard }],
    conn_index := 0, focused_card := { order := 7 }, inference := ⟨0, 2⟩,
    action_index := 4 }

def c5Game : Game :=
  { state := { play_stacks := [0], max_ranks := [5], discard_stacks := [[0,0,0,0,0]],
               variant := { suits := [{}] } },
    common := { playerIndex := -1, waiting_connections := [c5WC] },
    me := {} }

/-- Trivial discard collaborators: the discard application and belief updates
leave the game unchanged and the sarcastic search finds no candidate. -/
def c5Collab : DiscardCollab :=
  { onDiscard := fun g _ => g,
    interpret_sarcastic := fun _ _ => [],
    interpret_sarcastic_apply := fun g _ => g,
    restore_elim := fun g _ => g,
    undo_hypo_stacks := fun g _ => g,
    team_elim := fun g => g }

/-- A bombed discard of the connecting card (order 5). -/
def c5Action : DiscardAction :=
  { order := 5, playerIndex := 0, suitIndex := 0, rank := 2, failed := true }

theorem stacksGE_refl (l : List Nat) : StacksGE l l :=
  fun _ v h => ⟨v, h, Nat.le_refl v⟩

theorem stacksGE_set (play hypo : List Nat) (h : StacksGE play hypo) (s v w : Nat)
    (hv : hypo.get? s = some v) (hw : v ≤ w) : StacksGE play (hypo.set s w) := by
  intro i u hu
  rcases h i u hu with ⟨x, hx, hxle⟩
  rcases eq_or_ne s i with rfl | hne
  · have hvx : v = x := by
      rw [hv] at hx
      exact Option.some_inj.mp hx
    refine ⟨w, ?_, by omega⟩
    rw [List.get?_set_eq_of_lt]
    obtain ⟨hl, -⟩ := List.get?_eq_some.mp hv
    exact hl
  · exact ⟨x, by rw [List.get?_set_ne _ _ hne]; exact hx, hxle⟩

theorem insertOrder_subset (l : List Nat) (a o : Nat) (h : o ∈ insertOrder l a) :
    o ∈ l ∨ o = a := by
  unfold insertOrder at h
  split at h
  · exact Or.inl h
  · rcases List.mem_append.mp h with h1 | h1
    · exact Or.inl h1
    · exact Or.inr (List.mem_singleton.mp h1)

theorem tryAdvance_inv (play os : List Nat) (acc : HypoAcc) (id : Identity)
    (order : Nat) (viaLink : Bool) (up : List Nat)
    (h1 : StacksGE play acc.hypo_stacks) (h2 : ∀ o ∈ up, o ∈ os) :
    HypoInv play os (tryAdvance acc id order viaLink up) := by
  unfold tryAdvance
  cases hv : acc.hypo_stacks.get? id.suitIndex with
  | none => exact ⟨h1, h2⟩
  | some v =>
    dsimp only
    by_cases hc : (v + 1 == id.rank) = true
    · rw [if_pos hc]
      refine ⟨stacksGE_set play acc.hypo_stacks h1 id.suitIndex v id.rank hv ?_, h2⟩
      have hc2 : v + 1 = id.rank := by simpa using hc
      omega
    · rw [if_neg hc]
      exact ⟨h1, h2⟩

theorem processOrder_inv (state : GState) (pIdx : Int) (thoughts : List Thought)
    (links : List Link) (wcs : List WaitingConnection) (linked : List Nat)
    (play os : List Nat) (acc : HypoAcc) (order : Nat)
    (ho : order ∈ os) (hinv : HypoInv play os acc) :
    HypoInv play os (processOrder state pIdx thoughts links wcs linked acc order) := by
  obtain ⟨h1, h2⟩ := hinv
  have hup : ∀ o ∈ insertOrder acc.unknown_plays order, o ∈ os := by
    intro o hmem
    rcases insertOrder_subset acc.unknown_plays order o hmem with h | h
    · exact h2 o h
    · exact h ▸ ho
  simp only [processOrder]
  repeat' split
  all_goals
    first
      | exact ⟨h1, h2⟩
      | exact ⟨h1, hup⟩
      | exact tryAdvance_inv play os acc _ order true _ h1 hup
      | exact tryAdvance_inv play os acc _ order false _ h1 h2

theorem foldl_processOrder_inv (state : GState) (pIdx : Int) (thoughts : List Thought)
    (links : List Link) (wcs : List WaitingConnection) (linked : List Nat)
    (play os : List Nat) :
    ∀ (l : List Nat) (acc : HypoAcc), (∀ o ∈ l, o ∈ os) → HypoInv play os acc →
      HypoInv play os (l.foldl (processOrder state pIdx thoughts links wcs linked) acc)
  | [], acc, _, hinv => hinv
  | o :: rest, acc, hl, hinv => by
    have hstep := processOrder_inv state pIdx thoughts links wcs linked play os acc o
      (hl o (List.mem_cons_self o rest)) hinv
    exact foldl_processOrder_inv state pIdx thoughts links wcs linked play os rest _
      (fun x hx => hl x (List.mem_cons_of_mem o hx)) hstep

theorem hypoLoop_inv (state : GState) (pIdx : Int) (thoughts : List Thought)
    (links : List Link) (wcs : List WaitingConnection) (linked : List Nat)
    (play : List Nat) :
    ∀ (fuel : Nat) (acc : HypoAcc), HypoInv play (ordersOf state) acc →
      HypoInv play (ordersOf state) (hypoLoop state pIdx thoughts links wcs linked fuel acc)
  | 0, _, hinv => hinv
  | fuel + 1, acc, hinv => by
    simp only [hypoLoop]
    split
    · refine hypoLoop_inv state pIdx thoughts links wcs linked play fuel _ ?_
      exact foldl_processOrder_inv state pIdx thoughts links wcs linked play
        (ordersOf state) (ordersOf state) _ (fun _ h => h) ⟨hinv.1, hinv.2⟩
    · exact hinv

theorem maxOn_mem {α : Type} (l : List α) (f : α → ℚ) (x : α) (h : maxOn l f = some x) :
    x ∈ l := by
  induction l with
  | nil => cases h
  | cons a as ih =>
    simp only [maxOn] at h
    cases hm : maxOn as f with
    | none =>
      simp only [hm] at h
      injection h with h
      exact h ▸ List.mem_cons_self a as
    | some y =>
      simp only [hm] at h
      split at h
      · injection h with h
        refine List.mem_cons_of_mem a (ih ?_)
        rw [hm, h]
      · injection h with h
        exact h ▸ List.mem_cons_self a as

theorem clueCandidate_eval (C : Collab) (game : Game) (target : Nat)
    (target_card : ActualCard) (options : ClueOptions) (clue : Clue)
    (pr : Clue × ClueResultS)
    (h : clueCandidate C game target target_card options clue = some pr) :
    pr.1 = clue ∧ ∃ hg, evalClueFull C game target target_card clue = some hg := by
  simp only [clueCandidate] at h
  split at h
  · cases h
  · split at h
    · cases h
    · cases he : evalClueFull C game target target_card clue with
      | none => rw [he] at h; cases h
      | some hg =>
        rw [he] at h
        injection h with h
        exact ⟨by rw [← h], hg, rfl⟩

theorem evaluate_clue_focused (C : Collab) (game : Game) (action : ClueAction)
    (target : Nat) (target_card : ActualCard) (btc : List ActualCard) (hg : Game)
    (hmem : ∃ c ∈ handAt game.state target, c.order = target_card.order)
    (h : evaluate_clue C game action target target_card btc = some hg) :
    (thoughtAt hg.common.thoughts target_card.order).reset = false ∧
    matchesInferences (thoughtAt hg.common.thoughts target_card.order) = true := by
  obtain ⟨c, hc, hco⟩ := hmem
  simp only [evaluate_clue] at h
  cases hfind : (handAt game.state target).find?
      (clueIncorrect game (C.simulate_clue game action) target_card btc) with
  | some c2 => rw [hfind] at h; cases h
  | none =>
    rw [hfind] at h
    injection h with h
    subst h
    have hci := List.find?_eq_none.mp hfind c hc
    have hci2 : clueIncorrect game (C.simulate_clue game action) target_card btc c = false :=
      Bool.eq_false_iff.mpr hci
    simp only [clueIncorrect] at hci2
    rw [if_pos (by simp [hco])] at hci2
    rw [hco] at hci2
    obtain ⟨h1, h2⟩ := Bool.or_eq_false_iff.mp hci2
    refine ⟨h1, ?_⟩
    simpa using h2

/-- C3: whenever `determine_clue` returns a clue, the hypothetical game
obtained by evaluating that clue (simulating it from the receiver's
perspective) exists, and in it the focused card's common belief has
`reset = false` and matches at least one of its inferred identities; a clue
whose simulation leaves the focused card reset is rejected by
`evaluate_clue` and never returned. -/
theorem c3_determine_clue_no_reset (C : Collab) (game : Game) (target : Nat)
    (target_card : ActualCard) (options : ClueOptions) (r : ClueChoice)
    (hmem : ∃ c ∈ handAt game.state target, c.order = target_card.order)
    (h : determine_clue C game target target_card options = some r) :
    ∃ hg, evalClueFull C game target target_card ⟨r.type, r.value, r.target⟩ = some hg ∧
      (thoughtAt hg.common.thoughts target_card.order).reset = false ∧
      matchesInferences (thoughtAt hg.common.thoughts target_card.order) = true := by
  simp only [determine_clue] at h
  cases hres : (C.direct_clues game.state.variant target target_card options).filterMap
      (clueCandidate C game target target_card options) with
  | nil => simp only [hres] at h; cases h
  | cons r1 rs =>
    simp only [hres] at h
    cases hmax : maxOn (r1 :: rs) (fun pr => C.find_clue_value pr.2) with
    | none => simp only [hmax, Option.map_none'] at h; cases h
    | some pr =>
      simp only [hmax, Option.map_some'] at h
      injection h with h
      have hprmem : pr ∈ r1 :: rs := maxOn_mem (r1 :: rs) _ pr hmax
      rw [← hres] at hprmem
      obtain ⟨clue, -, hcand⟩ := List.mem_filterMap.mp hprmem
      obtain ⟨hfst, hg, hev⟩ :=
        clueCandidate_eval C game target target_card options clue pr hcand
      have hclue : (⟨r.type, r.value, r.target⟩ : Clue) = clue := by
        rw [← h, ← hfst]
      rw [hclue]
      refine ⟨hg, hev, ?_⟩
      have hEv2 := hev
      simp only [evalClueFull] at hEv2
      exact evaluate_clue_focused C game _ target target_card _ hg hmem hEv2

theorem scanGo_walk (game1 : Game) (action : DiscardAction) (sarcs : List ActualCard)
    (wcs : List WaitingConnection) (i : Nat)
    (hothers : ∀ j wc2, j ≠ i → wcs.get? j = some wc2 →
      dcConnIndex wc2 action.order = none) :
    ∀ (m k : Nat), k + m = i → i < wcs.length →
      scanGo game1 action sarcs wcs (wcs.drop k) k [] =
        scanGo game1 action sarcs wcs (wcs.drop i) i []
  | 0, k, hk, _ => by
    have hki : k = i := by omega
    rw [hki]
  | m + 1, k, hk, hlen => by
    have hkl : k < wcs.length := by omega
    rw [List.drop_eq_getElem_cons hkl]
    have hget : wcs.get? k = some wcs[k] := by
      rw [List.get?_eq_getElem?]
      exact List.getElem?_eq_getElem hkl
    have hnone : dcConnIndex wcs[k] action.order = none :=
      hothers k _ (by omega) hget
    simp only [scanGo, hnone]
    exact scanGo_walk game1 action sarcs wcs i hothers m (k + 1) (by omega) hlen

/-- C5: for a discard whose order occurs in the remaining chain (at or after
`conn_index`) of exactly one common waiting connection, with no other waiting
connection sharing that connection's action index: when the discarded
connecting card was clued, its rank still useful, the discard not a bomb, and
the sarcastic search yields exactly one candidate, `interpret_discard`
rewrites that connection in place onto the candidate and performs no rewind;
otherwise it rewinds to the connection's `action_index` with an ignore
override whose `conn_index` counts the non-hidden connections strictly before
the discarded one. -/
theorem c5_interpret_discard_wc (C : DiscardCollab) (game : Game)
    (action : DiscardAction) (card : ActualCard) (i d : Nat) (wc : WaitingConnection)
    (hi : (C.onDiscard game action).common.waiting_connections.get? i = some wc)
    (hd : dcConnIndex wc action.order = some d)
    (hothers : ∀ j wc2, j ≠ i →
      (C.onDiscard game action).common.waiting_connections.get? j = some wc2 →
      dcConnIndex wc2 action.order = none)
    (haction : ∀ j wc2, j ≠ i →
      (C.onDiscard game action).common.waiting_connections.get? j = some wc2 →
      wc2.action_index ≠ wc.action_index) :
    (sarcCondition (C.onDiscard game action) action
        (C.interpret_sarcastic (C.onDiscard game action) action) wc d = true →
      interpret_discard C game action card = .sarcasticRewrite i d
        (sarcConnection (C.onDiscard game action) wc d
          ((C.interpret_sarcastic (C.onDiscard game action) action).getD 0 {}))) ∧
    (sarcCondition (C.onDiscard game action) action
        (C.interpret_sarcastic (C.onDiscard game action) action) wc d = false →
      interpret_discard C game action card =
        .rewound wc.action_index (realConnects wc.connections d) action.order) := by
  set g1 := C.onDiscard game action with hg1
  set sarcs := C.interpret_sarcastic g1 action with hsarcs
  set wcs := g1.common.waiting_connections with hwcs
  have hlen : i < wcs.length := by
    obtain ⟨h2, -⟩ := List.get?_eq_some.mp hi
    exact h2
  have hwc : wcs[i] = wc := by
    obtain ⟨h2, hget⟩ := List.get?_eq_some.mp hi
    exact hget
  have hany : ((List.range wcs.length).any (fun j =>
      ((wcs.get? j).any (fun wc2 => wc2.action_index == wc.action_index)) &&
      !(([i] : List Nat).contains j))) = false := by
    rw [List.any_eq_false]
    intro j hj
    by_cases hji : j = i
    · subst hji
      simp
    · have hjl : j < wcs.length := List.mem_range.mp hj
      have hget : wcs.get? j = some wcs[j] := by
        rw [List.get?_eq_getElem?]
        exact List.getElem?_eq_getElem hjl
      have hgetE : wcs[j]? = some wcs[j] := List.getElem?_eq_getElem hjl
      have hne := haction j wcs[j] hji hget
      simp [hgetE, hne, hji]
  have hwalk := scanGo_walk g1 action sarcs wcs i hothers i 0 (by omega) hlen
  rw [List.drop_zero] at hwalk
  have hscan : scanGo g1 action sarcs wcs wcs 0 [] =
      (if sarcCondition g1 action sarcs wc d then
        ScanRes.rewrite i d (sarcConnection g1 wc d (sarcs.getD 0 {}))
      else
        ScanRes.rewindTo wc.action_index (realConnects wc.connections d) action.order) := by
    rw [hwalk, List.drop_eq_getElem_cons hlen, hwc]
    simp only [scanGo, hd, List.nil_append]
    rw [if_neg (fun hcontra => Bool.false_ne_true (hany ▸ hcontra))]
  constructor
  · intro hcond
    simp only [interpret_discard]
    rw [← hg1, ← hsarcs, ← hwcs, hscan, if_pos hcond]
  · intro hcond
    simp only [interpret_discard]
    rw [← hg1, ← hsarcs, ← hwcs, hscan,
      if_neg (fun hcontra => Bool.false_ne_true (hcond ▸ hcontra))]

/-- Witness for C3: `determine_clue` returns the rank-1 clue at the concrete
game, so the evaluated focused belief is not reset and matches inferences. -/
theorem c3_determine_clue_no_reset_witness :
    ∃ hg, evalClueFull c3Collab c3Game 0 c3Card ⟨1, 1, 0⟩ = some hg ∧
      (thoughtAt hg.common.thoughts c3Card.order).reset = false ∧
      matchesInferences (thoughtAt hg.common.thoughts c3Card.order) = true :=
  c3_determine_clue_no_reset c3Collab c3Game 0 c3Card { save := true }
    { type := 1, value := 1, target := 0, result := {} }
    ⟨c3Card, by decide, rfl⟩ (by decide)

/-- C1 (counterexample): for the concrete state with `play_stacks = [3,0,0]`,
`isBasicTrash` of `{suitIndex: 0, rank: 2}` is true as claimed, but
`playableAway` returns `-2` (`2 - (3 + 1)`), not `-1` — the claim is false at
this input. -/
theorem c1_playableAway_cx :
    c1State.play_stacks = [3, 0, 0] ∧
    isBasicTrash c1State ⟨0, 2⟩ = true ∧
    playableAway c1State ⟨0, 2⟩ = -2 ∧
    playableAway c1State ⟨0, 2⟩ ≠ -1 := by decide

/-- C1 (amended): for every state with `play_stacks = [3,0,0]`, the identity
`{suitIndex: 0, rank: 2}` is basic trash (already played) and
`playableAway` returns `-2`. -/
theorem c1_basicTrash_playableAway (state : OState)
    (h : state.play_stacks = [3, 0, 0]) :
    isBasicTrash state ⟨0, 2⟩ = true ∧ playableAway state ⟨0, 2⟩ = -2 := by
  constructor
  · simp [isBasicTrash, h]
  · simp [playableAway, h]

/-- Witness for C1: the amended theorem applied at the concrete state. -/
theorem c1_basicTrash_playableAway_witness :
    isBasicTrash c1State ⟨0, 2⟩ = true ∧ playableAway c1State ⟨0, 2⟩ = -2 :=
  c1_basicTrash_playableAway c1State rfl

/-- C8: for a variant where suit 0 is not dark and rank 1 is not the critical
rank (so rank 1 has 3 copies), a state with two rank-1 copies of suit 0
discarded makes `{suitIndex: 0, rank: 1}` critical: the discard count equals
the total copy count minus one. -/
theorem c8_isCritical (state : OState)
    (hdark : (state.variant.suits.get? 0).any Suit.dark = false)
    (hcrit : state.variant.criticalRank ≠ some 1)
    (hdisc : (state.discard_stacks.get? 0).bind (fun s => s.get? 0) = some 2) :
    isCritical state ⟨0, 1⟩ = true := by
  simp only [List.get?_eq_getElem?] at hdark hdisc
  have hcount : cardCount state.variant ⟨0, 1⟩ = 3 := by
    simp [cardCount, hdark, hcrit]
  simp [isCritical, hcount, hdisc]

/-- Witness for C8: the theorem applied at the concrete discard state. -/
theorem c8_isCritical_witness : isCritical c8State ⟨0, 1⟩ = true :=
  c8_isCritical c8State (by decide) (by decide) (by decide)

/-- C9: for a belief-carrying card of our own hand whose identity is unknown
(`suitIndex = -1`) and whose possible set is non-empty, `cardValue` returns
the arithmetic mean of `cardValue` over the identities in the possible set
(the recursive calls use the default order `-1`), not any of the fixed
0/5/4 branches. -/
theorem c9_cardValue_mean (state : OState) (t : Thought) (order : Int)
    (h1 : t.suitIndex = -1) (_h2 : t.possible ≠ []) :
    cardValue state (.card t) order =
      ((t.possible.map (fun p => cardValue state (.basic p) (-1))).sum) /
        (t.possible.length : ℚ) := by
  simp [cardValue, h1]

/-- Witness for C9: the mean branch evaluated on a concrete unknown card. -/
theorem c9_cardValue_mean_witness :
    cardValue c1State (.card c9Thought) (-1) =
      ((c9Thought.possible.map (fun p => cardValue c1State (.basic p) (-1))).sum) /
        (c9Thought.possible.length : ℚ) :=
  c9_cardValue_mean c1State c9Thought (-1) rfl (by decide)

/-- C7: `minimalCopy` throws exactly when the clone depth exceeds 3, and
otherwise returns a fresh state whose `copyDepth` is one above the original's
and whose minimal properties are copies of the original's (the embedding is a
pure function, so the original is unmodified by construction). -/
theorem c7_minimalCopy (s : PSState) :
    (s.copyDepth > 3 → minimalCopy s = .error "Maximum recursive depth reached.") ∧
    (s.copyDepth ≤ 3 → ∃ s2, minimalCopy s = .ok s2 ∧
      s2.copyDepth = s.copyDepth + 1 ∧ s2.play_stacks = s.play_stacks ∧
      s2.hands = s.hands ∧ s2.clue_tokens = s.clue_tokens) := by
  constructor
  · intro h
    simp only [minimalCopy]
    rw [if_pos h]
  · intro h
    simp only [minimalCopy]
    rw [if_neg (by omega)]
    exact ⟨_, rfl, rfl, rfl, rfl, rfl⟩

/-- Witness for C7: a depth-4 state throws; a depth-2 state is copied with
depth 3. -/
theorem c7_minimalCopy_witness :
    (minimalCopy { copyDepth := 4 } = .error "Maximum recursive depth reached.") ∧
    ∃ s2, minimalCopy ({ copyDepth := 2, play_stacks := [1, 2] } : PSState) = .ok s2 ∧
      s2.copyDepth = 3 := by
  constructor
  · exact (c7_minimalCopy { copyDepth := 4 }).1 (by decide)
  · obtain ⟨s2, hok, hdepth, -, -, -⟩ :=
      (c7_minimalCopy ({ copyDepth := 2, play_stacks := [1, 2] } : PSState)).2 (by decide)
    exact ⟨s2, hok, by rw [hdepth]⟩

/-- C2: running `update_hypo_stacks` twice in succession on an unchanged
state (the update writes only `hypo_stacks` and `unknown_plays`, leaving the
thoughts, links and waiting connections as they were) produces the same
`hypo_stacks` and the same `unknown_plays` as running it once: the
computation is a pure function of the unchanged inputs. -/
theorem c2_update_hypo_stacks_idem (state : GState) (p : Player) :
    (update_hypo_stacks state (update_hypo_stacks state p)).hypo_stacks =
      (update_hypo_stacks state p).hypo_stacks ∧
    (update_hypo_stacks state (update_hypo_stacks state p)).unknown_plays =
      (update_hypo_stacks state p).unknown_plays :=
  ⟨rfl, rfl⟩

/-- C10: after `update_hypo_stacks`, every suit's hypo stack is at least the
authoritative play stack, and every order recorded in `unknown_plays` is the
order of a card currently held in some hand. -/
theorem c10_update_hypo_stacks_bounds (state : GState) (p : Player) :
    (∀ i v, state.play_stacks.get? i = some v →
      ∃ w, (update_hypo_stacks state p).hypo_stacks.get? i = some w ∧ v ≤ w) ∧
    (∀ o ∈ (update_hypo_stacks state p).unknown_plays,
      ∃ c ∈ handsJoin state, c.order = o) := by
  have hrun := hypoLoop_inv state p.playerIndex p.thoughts p.links p.waiting_connections
    (linkedOrders state p) state.play_stacks (hypoFuel state)
    { hypo_stacks := state.play_stacks, gte := [], unknown_plays := [],
      found := true, events := [] }
    ⟨stacksGE_refl state.play_stacks, fun o h => absurd h (List.not_mem_nil o)⟩
  refine ⟨fun i v hv => hrun.1 i v hv, fun o ho => ?_⟩
  have h2 := hrun.2 o ho
  obtain ⟨c, hc, hco⟩ := List.mem_map.mp h2
  exact ⟨c, hc, hco⟩

theorem tryAdvance_spec (acc : HypoAcc) (id : Identity) (order : Nat) (viaLink : Bool)
    (up : List Nat) :
    ((tryAdvance acc id order viaLink up).hypo_stacks = acc.hypo_stacks ∧
      (tryAdvance acc id order viaLink up).events = acc.events ++ [HypoEvent.skip id order]) ∨
    (∃ v, acc.hypo_stacks.get? id.suitIndex = some v ∧ id.rank = v + 1 ∧
      (tryAdvance acc id order viaLink up).hypo_stacks = acc.hypo_stacks.set id.suitIndex (v + 1) ∧
      (tryAdvance acc id order viaLink up).events =
        acc.events ++ [HypoEvent.advance id.suitIndex v id order viaLink]) := by
  unfold tryAdvance
  cases hv : acc.hypo_stacks.get? id.suitIndex with
  | none => exact Or.inl ⟨rfl, rfl⟩
  | some v =>
    dsimp only
    by_cases hc : (v + 1 == id.rank) = true
    · rw [if_pos hc]
      have hc2 : v + 1 = id.rank := by simpa using hc
      refine Or.inr ⟨v, rfl, hc2.symm, ?_, rfl⟩
      show acc.hypo_stacks.set id.suitIndex id.rank = acc.hypo_stacks.set id.suitIndex (v + 1)
      rw [hc2]
    · rw [if_neg hc]
      exact Or.inl ⟨rfl, rfl⟩

theorem tryAdvance_shape (acc : HypoAcc) (id : Identity) (order : Nat) (viaLink : Bool)
    (up : List Nat) :
    ((tryAdvance acc id order viaLink up).hypo_stacks = acc.hypo_stacks ∧
      ((tryAdvance acc id order viaLink up).events = acc.events ∨
       ∃ id2 o2, (tryAdvance acc id order viaLink up).events =
         acc.events ++ [HypoEvent.skip id2 o2])) ∨
    (∃ s v id2 o2 vl2, acc.hypo_stacks.get? s = some v ∧ id2.suitIndex = s ∧
      id2.rank = v + 1 ∧
      (tryAdvance acc id order viaLink up).hypo_stacks = acc.hypo_stacks.set s (v + 1) ∧
      (tryAdvance acc id order viaLink up).events =
        acc.events ++ [HypoEvent.advance s v id2 o2 vl2]) := by
  rcases tryAdvance_spec acc id order viaLink up with ⟨h1, h2⟩ | ⟨v, hv, hr, hh, he⟩
  · exact Or.inl ⟨h1, Or.inr ⟨id, order, h2⟩⟩
  · exact Or.inr ⟨id.suitIndex, v, id, order, viaLink, hv, rfl, hr, hh, he⟩

theorem processOrder_advance_direct (state : GState) (pIdx : Int) (thoughts : List Thought)
    (links : List Link) (wcs : List WaitingConnection) (linked : List Nat)
    (acc : HypoAcc) (order : Nat) (s v : Nat) (id : Identity) (o : Nat)
    (h : (processOrder state pIdx thoughts links wcs linked acc order).events =
      acc.events ++ [HypoEvent.advance s v id o false]) :
    o = order ∧ identityOf (thoughtAt thoughts order) true = some id ∧
    (pIdx == -1 && commonGuard state wcs acc (thoughtAt thoughts order) order) = false := by
  simp only [processOrder] at h
  split at h
  · simp at h
  · split at h
    · simp at h
    · split at h
      · simp at h
      · rename_i hng
        split at h
        · split at h
          · split at h
            · split at h
              · rcases tryAdvance_spec acc _ order true _ with ⟨-, hb⟩ | ⟨v2, -, -, -, hb⟩ <;>
                  rw [hb] at h <;> simp at h
              · simp at h
            · simp at h
          · simp at h
        · rename_i id0 heq
          rcases tryAdvance_spec acc id0 order false acc.unknown_plays with
            ⟨-, hb⟩ | ⟨v2, hv2, hr2, hh2, hb⟩
          · rw [hb] at h; simp at h
          · rw [hb] at h
            simp only [List.append_cancel_left_eq, List.cons.injEq, HypoEvent.advance.injEq,
              and_true] at h
            obtain ⟨hs, hv', hid, ho⟩ := h
            refine ⟨ho.symm, by rw [heq, hid], ?_⟩
            exact Bool.eq_false_iff.mpr hng

/-- C4 (amended): within every run of `update_hypo_stacks`, each scan step
either leaves the hypo stacks unchanged (logging at most a skip warning —
never fatal) or advances exactly one suit's stack from its current value `v`
to `v + 1` using a candidate of rank `v + 1`; and under the common
perspective (`playerIndex = -1`), an advance made directly from a card's
identified identity (the non-promised-link branch) never uses an identity
contradicting the deck's known ground truth for that card, and never fires
while another held card matching that ground truth already sits in
`unknown_plays`.  (Promised-link advances are not checked against the deck;
see the counterexample.) -/
theorem c4_advance_spec (state : GState) (pIdx : Int) (thoughts : List Thought)
    (links : List Link) (wcs : List WaitingConnection) (linked : List Nat)
    (acc : HypoAcc) (order : Nat) :
    (((processOrder state pIdx thoughts links wcs linked acc order).hypo_stacks =
        acc.hypo_stacks ∧
      ((processOrder state pIdx thoughts links wcs linked acc order).events = acc.events ∨
       ∃ id2 o2, (processOrder state pIdx thoughts links wcs linked acc order).events =
         acc.events ++ [HypoEvent.skip id2 o2])) ∨
     (∃ s v id2 o2 vl2, acc.hypo_stacks.get? s = some v ∧ id2.suitIndex = s ∧
       id2.rank = v + 1 ∧
       (processOrder state pIdx thoughts links wcs linked acc order).hypo_stacks =
         acc.hypo_stacks.set s (v + 1) ∧
       (processOrder state pIdx thoughts links wcs linked acc order).events =
         acc.events ++ [HypoEvent.advance s v id2 o2 vl2])) ∧
    (∀ s v id o, pIdx = -1 →
      (processOrder state pIdx thoughts links wcs linked acc order).events =
        acc.events ++ [HypoEvent.advance s v id o false] →
      ∀ a, actualIdentity (deckAt state o) = some a →
        id = a ∧
        (handsJoin state).any (fun c => acc.unknown_plays.contains c.order &&
          actualMatchesId c a) = false) := by
  constructor
  · simp only [processOrder]
    repeat' split
    all_goals
      first
        | exact Or.inl ⟨rfl, Or.inl rfl⟩
        | exact tryAdvance_shape acc _ order _ _
  · intro s v id o hp h a ha
    obtain ⟨ho, hid, hg⟩ :=
      processOrder_advance_direct state pIdx thoughts links wcs linked acc order s v id o h
    subst ho
    rw [hp] at hg
    have hguard : commonGuard state wcs acc (thoughtAt thoughts o) o = false := by
      simpa using hg
    simp only [commonGuard, hid, ha, Bool.or_eq_false_iff, Option.isSome_some,
      Bool.true_and] at hguard
    obtain ⟨⟨h1, h2⟩, -⟩ := hguard
    constructor
    · simpa using h1
    · exact h2

/-- Witness for C4: the direct-advance guarantee applied at a concrete step
that advances the red stack with the identified red 1. -/
theorem c4_advance_spec_witness :
    (⟨0, 1⟩ : Identity) = ⟨0, 1⟩ ∧
    (handsJoin c4wState).any (fun c =>
      (HypoAcc.mk [0] [] [] true []).unknown_plays.contains c.order &&
      actualMatchesId c ⟨0, 1⟩) = false :=
  (c4_advance_spec c4wState (-1) [c4wThought] [] [] [] ⟨[0], [], [], true, []⟩ 0).2
    0 0 ⟨0, 1⟩ 0 rfl (by decide) ⟨0, 1⟩ (by decide)

/-- C4 (counterexample): in the promised-link scenario the common perspective
(`playerIndex = -1`) advances a stack with the link identity red 1 for the
card of order 1, whose deck ground truth is yellow 2 — an advance using an
identity that contradicts the deck's ground truth, which the claim asserts
never happens. -/
theorem c4_ground_truth_cx :
    c4Player.playerIndex = -1 ∧
    HypoEvent.advance 0 0 ⟨0, 1⟩ 1 true ∈ (runHypo c4State c4Player).events ∧
    actualIdentity (deckAt c4State 1) = some ⟨1, 2⟩ ∧
    (⟨0, 1⟩ : Identity) ≠ ⟨1, 2⟩ := by decide

/-- Witness for C10: bounds extracted at the promised-link scenario, whose
run advances a stack and records two unknown plays. -/
theorem c10_update_hypo_stacks_bounds_witness :
    (∃ w, (update_hypo_stacks c4State c4Player).hypo_stacks.get? 0 = some w ∧ 0 ≤ w) ∧
    ∃ c ∈ handsJoin c4State, c.order = 1 := by
  obtain ⟨h1, h2⟩ := c10_update_hypo_stacks_bounds c4State c4Player
  exact ⟨h1 0 0 (by decide), h2 1 (by decide)⟩

theorem enumFrom_any_snd (x : FocusPossibility) (l : List FocusPossibility) :
    ∀ n, (l.enumFrom n).any (fun pr => samePairB x pr.2) = l.any (samePairB x) := by
  induction l with
  | nil => intro n; rfl
  | cons a as ih => intro n; simp only [List.enumFrom_cons, List.any_cons, ih]

theorem keepLast_cons_zero (x : FocusPossibility) (l : List FocusPossibility) :
    keepLast (x :: l) 0 x = !(l.any (samePairB x)) := by
  simp only [keepLast, List.enum_cons', List.any_cons, List.any_map]
  have hfg : ((fun pr => samePairB x pr.2 && decide (0 < pr.1)) ∘
      Prod.map (fun y => y + 1) id) =
      (fun pr : Nat × FocusPossibility => samePairB x pr.2) := by
    funext pr
    cases pr with
    | mk i p => simp [Prod.map]
  rw [hfg]
  rw [List.enum_eq_enumFrom, enumFrom_any_snd x l 0]
  simp

theorem keepLast_cons_succ (x p : FocusPossibility) (l : List FocusPossibility) (i : Nat) :
    keepLast (x :: l) (i + 1) p = keepLast l i p := by
  simp only [keepLast, List.enum_cons', List.any_cons, List.any_map]
  have h0 : decide (i + 1 < 0) = false := by simp
  have hfg : ((fun pr => samePairB p pr.2 && decide (i + 1 < pr.1)) ∘
      Prod.map (fun y => y + 1) id) =
      (fun pr : Nat × FocusPossibility => samePairB p pr.2 && decide (i < pr.1)) := by
    funext pr
    cases pr with
    | mk j q => simp [Prod.map, Nat.succ_lt_succ_iff]
  rw [hfg]
  simp

theorem dedupLastWins_cons (x : FocusPossibility) (l : List FocusPossibility) :
    dedupLastWins (x :: l) =
      (if l.any (samePairB x) then [] else [x]) ++ dedupLastWins l := by
  have hsnd : (fun pr : Nat × FocusPossibility => pr.2) ∘ (Prod.map (fun y => y + 1) id) =
      (fun pr : Nat × FocusPossibility => pr.2) := by
    funext pr
    cases pr
    simp [Prod.map]
  simp only [dedupLastWins, List.enum_cons', List.filter_cons]
  have htail : List.filter (fun pr => keepLast (x :: l) pr.1 pr.2)
      (l.enum.map (Prod.map (fun y => y + 1) id)) =
      (List.filter (fun pr => keepLast l pr.1 pr.2) l.enum).map
        (Prod.map (fun y => y + 1) id) := by
    rw [List.filter_map]
    refine congrArg _ (List.filter_congr ?_)
    intro pr hpr
    cases pr with
    | mk i p => simp [Function.comp, Prod.map, keepLast_cons_succ]
  by_cases hdup : l.any (samePairB x) = true
  · have hk : keepLast (x :: l) 0 x = false := by
      rw [keepLast_cons_zero, hdup]
      rfl
    rw [if_neg (fun hc => Bool.false_ne_true (hk ▸ hc))]
    rw [htail, if_pos hdup, List.nil_append, List.map_map, hsnd]
  · have hd2 : l.any (samePairB x) = false := Bool.eq_false_iff.mpr hdup
    have hk : keepLast (x :: l) 0 x = true := by
      rw [keepLast_cons_zero, hd2]
      rfl
    rw [if_pos hk, htail, List.map_cons, List.map_map, hsnd, if_neg hdup,
      List.singleton_append]

theorem dedupLastWins_subset (l : List FocusPossibility) :
    ∀ p ∈ dedupLastWins l, p ∈ l := by
  induction l with
  | nil => exact fun p hp => absurd hp (by simp [dedupLastWins])
  | cons x xs ih =>
    intro p hp
    rw [dedupLastWins_cons] at hp
    rcases List.mem_append.mp hp with h1 | h1
    · split at h1
      · cases h1
      · rw [List.mem_singleton.mp h1]
        exact List.mem_cons_self x xs
    · exact List.mem_cons_of_mem x (ih p h1)

theorem dedupLastWins_pairwise (l : List FocusPossibility) :
    List.Pairwise (fun a b => ¬(a.suitIndex = b.suitIndex ∧ a.rank = b.rank))
      (dedupLastWins l) := by
  induction l with
  | nil => simp [dedupLastWins]
  | cons x xs ih =>
    rw [dedupLastWins_cons]
    by_cases hdup : xs.any (samePairB x) = true
    · rw [if_pos hdup, List.nil_append]
      exact ih
    · rw [if_neg hdup, List.singleton_append]
      refine List.Pairwise.cons ?_ ih
      intro b hb hcon
      obtain ⟨hs, hr⟩ := hcon
      apply List.any_eq_false.mp (Bool.eq_false_iff.mpr hdup) b (dedupLastWins_subset xs b hb)
      simp [samePairB, hs, hr]

theorem dedupLastWins_filter (l : List FocusPossibility) (s r : Nat) :
    (dedupLastWins l).filter (fun p => p.suitIndex == s && p.rank == r) =
      ((l.filter (fun p => p.suitIndex == s && p.rank == r)).getLast?).toList := by
  induction l with
  | nil => rfl
  | cons x xs ih =>
    rw [dedupLastWins_cons, List.filter_append, ih, List.filter_cons]
    by_cases hx : (x.suitIndex == s && x.rank == r) = true
    · rw [if_pos hx]
      by_cases hdup : xs.any (samePairB x) = true
      · rw [if_pos hdup]
        have hne : xs.filter (fun p => p.suitIndex == s && p.rank == r) ≠ [] := by
          obtain ⟨q, hq, hq2⟩ := List.any_eq_true.mp hdup
          intro hnil
          apply List.filter_eq_nil_iff.mp hnil q hq
          simp only [samePairB, Bool.and_eq_true, beq_iff_eq] at hx hq2 ⊢
          omega
        cases hfe : xs.filter (fun p => p.suitIndex == s && p.rank == r) with
        | nil => exact absurd hfe hne
        | cons b bs =>
          rw [List.getLast?_cons_cons]
          simp
      · rw [if_neg hdup]
        have hfe : xs.filter (fun p => p.suitIndex == s && p.rank == r) = [] := by
          rw [List.filter_eq_nil_iff]
          intro q hq hq2
          apply List.any_eq_false.mp (Bool.eq_false_iff.mpr hdup) q hq
          simp only [Bool.and_eq_true, beq_iff_eq] at hx hq2
          simp [samePairB, hx.1, hx.2, hq2.1, hq2.2]
        rw [hfe]
        simp [List.filter_singleton, hx]
    · rw [if_neg hx]
      by_cases hdup : xs.any (samePairB x) = true
      · rw [if_pos hdup]
        simp
      · rw [if_neg hdup]
        simp [List.filter_singleton, hx]

/-- C6: the list returned by `find_focus_possible` holds at most one entry
per (suitIndex, rank) pair, and for every pair the entry kept is exactly the
last-generated one of the raw interpretation list — so a save interpretation,
generated after a play interpretation for the same pair, wins. -/
theorem c6_find_focus_possible_dedup (C : FocusCollab) (state : FState)
    (action : ClueAction) :
    List.Pairwise (fun a b => ¬(a.suitIndex = b.suitIndex ∧ a.rank = b.rank))
      (find_focus_possible C state action) ∧
    ∀ s r, (find_focus_possible C state action).filter
        (fun p => p.suitIndex == s && p.rank == r) =
      (((rawFocus C state action).filter
        (fun p => p.suitIndex == s && p.rank == r)).getLast?).toList :=
  ⟨dedupLastWins_pairwise (rawFocus C state action),
   fun s r => dedupLastWins_filter (rawFocus C state action) s r⟩

/-- Witness for C5: the bombed discard fails the sarcastic condition, so the
scan rewinds to action index 4 with an ignore override of zero non-hidden
prior connections. -/
theorem c5_interpret_discard_wc_witness :
    interpret_discard c5Collab c5Game c5Action {} = DiscardOutcome.rewound 4 0 5 := by
  refine (c5_interpret_discard_wc c5Collab c5Game c5Action {} 0 0 c5WC (by decide)
    (by decide) ?_ ?_).2 (by decide)
  · intro j wc2 hj hget
    obtain ⟨hlt, -⟩ := List.get?_eq_some.mp hget
    have hlt2 : j < 1 := hlt
    exact absurd (by omega : j = 0) hj
  · intro j wc2 hj hget
    obtain ⟨hlt, -⟩ := List.get?_eq_some.mp hget
    have hlt2 : j < 1 := hlt
    exact absurd (by omega : j = 0) hj
